import Mathlib

/-!
Verification development for the private-journal MCP server's dual-root
storage and semantic-search subsystem.  The definitions below are a shallow
embedding of `src/config.ts` and `src/journal.ts` (plus the embedding-store
operations those modules call).  Environment variables are modelled as an
explicit `Env` record, the filesystem as an association list from absolute
path strings to file contents, and asynchronous fallible steps as explicit
boolean oracles.  Node's `path.posix` / `path.win32` helpers are modelled on
character lists for the path shapes the program produces.
-/

set_option maxRecDepth 10000

/-! ## Character-list string helpers (models of Node path/string operations) -/

/-- Split a character list at every occurrence of `c` (model of splitting a
string into lines with `'\n'`). -/
def splitOnChar (c : Char) : List Char → List (List Char)
  | [] => [[]]
  | x :: xs =>
    let rest := splitOnChar c xs
    if x = c then [] :: rest
    else
      match rest with
      | [] => [[x]]
      | r :: rs => (x :: r) :: rs

/-- Lines of a string, split on newline characters. -/
def strLines (s : String) : List String :=
  (splitOnChar '\n' s.data).map String.mk

/-- JavaScript `String.prototype.startsWith`. -/
def strStartsWith (s t : String) : Bool :=
  t.data.isPrefixOf s.data

/-- JavaScript `String.prototype.endsWith`. -/
def strEndsWith (s t : String) : Bool :=
  t.data.isSuffixOf s.data

/-- JavaScript `String.prototype.trim` (whitespace stripped at both ends). -/
def strTrim (s : String) : String :=
  String.mk (((s.data.dropWhile Char.isWhitespace).reverse.dropWhile Char.isWhitespace).reverse)

/-- JavaScript truthiness of an optional environment-variable string:
`undefined` and the empty string are falsy, every other string is truthy. -/
def truthyS : Option String → Bool
  | none => false
  | some s => s ≠ ""

/-- Separator test for the path helpers. -/
def isSlash (c : Char) : Bool :=
  c == '/'

/-- Model of Node `path.posix.basename` on a character list: trailing
separators are ignored and the final path segment is returned. -/
def basenameData (cs : List Char) : List Char :=
  ((cs.reverse.dropWhile isSlash).takeWhile (fun c => !(isSlash c))).reverse

/-- Model of Node `path.posix.dirname` on a character list (for paths that do
not begin with a double separator, the only shapes this program produces). -/
def dirnameData (cs : List Char) : List Char :=
  match (cs.reverse.dropWhile isSlash).dropWhile (fun c => !(isSlash c)) with
  | '/' :: rest =>
    if rest = [] then (if cs.head? = some '/' then ['/'] else ['.']) else rest.reverse
  | _ => if cs.head? = some '/' then ['/'] else ['.']

/-- Node `path.posix.basename(p)` as a string function. -/
def strBasename (s : String) : String :=
  String.mk (basenameData s.data)

/-- Node `path.posix.dirname(p)` as a string function. -/
def strDirname (s : String) : String :=
  String.mk (dirnameData s.data)

/-- Node `path.posix.basename(p, ext)`: the basename with `ext` stripped when
it is a proper suffix of the basename. -/
def strBasenameExt (s ext : String) : String :=
  let b := basenameData s.data
  if ext.data ≠ [] ∧ ext.data.isSuffixOf b ∧ b ≠ ext.data then
    String.mk (b.take (b.length - ext.data.length))
  else String.mk b

/-- Node `path.posix.join` restricted to two segments, for the
already-normalised segments this program joins. -/
def posixJoin (a b : String) : String :=
  a ++ "/" ++ b

/-- Node `path.win32.join` restricted to two segments. -/
def win32Join (a b : String) : String :=
  a ++ "\\" ++ b

/-- The source transform `mdPath.replace(/\.md$/, '.embedding')`. -/
def replaceMdSuffix (s : String) : String :=
  if strEndsWith s ".md" then
    String.mk (s.data.take (s.data.length - 3) ++ ".embedding".data)
  else s

/-! ## Environment model -/

/-- The environment variables consumed by `src/config.ts` and the journal
write path, modelled as one explicit record (the process runs on a POSIX
host, so the default `path` module is `path.posix`). -/
structure Env where
  agenticJournalPath : Option String
  agenticJournalVault : Option String
  localAppData : Option String
  home : Option String
  userProfile : Option String
deriving DecidableEq

/-! ## `src/config.ts` -/

/-- Vault-name → vault-path mapping, with JavaScript object insertion
semantics (`ObsidianVaultMap`). -/
abbrev VaultMap := List (String × String)

/-- JavaScript object property read. -/
def lookupVault (m : VaultMap) (k : String) : Option String :=
  (m.find? (fun e => e.1 == k)).map (·.2)

/-- JavaScript object property write: an existing key is updated in place,
a new key is appended in insertion order. -/
def insertVault (m : VaultMap) (k v : String) : VaultMap :=
  if m.any (fun e => e.1 == k) then
    m.map (fun e => if e.1 == k then (k, v) else e)
  else m ++ [(k, v)]

/-- `isObsidianMode` from `src/config.ts`:
`Boolean(vaultName && vaultName.trim().length > 0)`. -/
def isObsidianMode (env : Env) : Bool :=
  match env.agenticJournalVault with
  | none => false
  | some v => (!(v == "")) && (!(strTrim v == ""))

/-- Modelled from the spec: `src/paths.ts` is not among the sources.  Per
§4.1 step 3 and §6, the default user-journal resolve (with the
home-excluding flag false) joins the home directory — `HOME`, else the
Windows profile variable — with the journal directory name, falling back to
a temporary root when no home directory is discoverable. -/
def resolveJournalPathNoHome (env : Env) (dirName : String) : String :=
  match env.userProfile with
  | some u => if u ≠ "" then posixJoin u dirName else posixJoin "/tmp" dirName
  | none => posixJoin "/tmp" dirName

/-- Modelled from the spec: see `resolveJournalPathNoHome`. -/
def resolveJournalPath (env : Env) (dirName : String) : String :=
  match env.home with
  | some h => if h ≠ "" then posixJoin h dirName else resolveJournalPathNoHome env dirName
  | none => resolveJournalPathNoHome env dirName

/-- Result of `getUserJournalPath`: the resolved path together with whether
the vault-not-found warning was emitted on `console.error`. -/
structure ResolveResult where
  path : String
  warned : Bool
deriving DecidableEq

/-- Priorities 2 and 3 of `getUserJournalPath` from `src/config.ts`: the
named-vault lookup, then the default path. -/
def getUserJournalPathVault (env : Env) (vaults : VaultMap) : ResolveResult :=
  match env.agenticJournalVault with
  | some v =>
    if (!(v == "")) && (!(strTrim v == "")) then
      match lookupVault vaults v with
      | some vaultPath => ⟨posixJoin vaultPath "agentic-journal", false⟩
      | none => ⟨resolveJournalPath env ".private-journal", true⟩
    else ⟨resolveJournalPath env ".private-journal", false⟩
  | none => ⟨resolveJournalPath env ".private-journal", false⟩

/-- `getUserJournalPath` from `src/config.ts`.  The awaited
`getObsidianVaults` result is passed in as `vaults` (it is a pure function
of the registry file contents). -/
def getUserJournalPath (env : Env) (vaults : VaultMap) : ResolveResult :=
  match env.agenticJournalPath with
  | some p => if p ≠ "" then ⟨p, false⟩ else getUserJournalPathVault env vaults
  | none => getUserJournalPathVault env vaults

/-- `getEmbeddingCachePath` Unix branch: `HOME || '/tmp'` under
`.cache/private-journal/embeddings`. -/
def getEmbeddingCachePathUnix (env : Env) : String :=
  let home := match env.home with
    | some h => if h ≠ "" then h else "/tmp"
    | none => "/tmp"
  posixJoin (posixJoin (posixJoin home ".cache") "private-journal") "embeddings"

/-- `getEmbeddingCachePath` from `src/config.ts`. -/
def getEmbeddingCachePath (env : Env) : String :=
  match env.localAppData with
  | some l =>
    if l ≠ "" then win32Join (win32Join l "private-journal") "embeddings"
    else getEmbeddingCachePathUnix env
  | none => getEmbeddingCachePathUnix env

/-- `getEmbeddingPathForFile` from `src/config.ts`: the cache location for a
user-journal file in Obsidian mode, otherwise the alongside transform. -/
def getEmbeddingPathForFile (env : Env) (mdPath : String) (isUserJournal : Bool) : String :=
  if isUserJournal && isObsidianMode env then
    let cachePath := getEmbeddingCachePath env
    let filename := strBasenameExt mdPath ".md"
    let dateDir := strBasename (strDirname mdPath)
    if truthyS env.localAppData then
      win32Join cachePath (dateDir ++ "--" ++ filename ++ ".embedding")
    else
      posixJoin cachePath (dateDir ++ "--" ++ filename ++ ".embedding")
  else replaceMdSuffix mdPath

/-! ## JSON model and `parseObsidianConfig` -/

/-- JSON values as produced by `JSON.parse` (numbers restricted to the
integers, which suffices for the vault-registry documents at issue). -/
inductive Json where
  | null
  | bool (b : Bool)
  | num (n : Int)
  | str (s : String)
  | arr (xs : List Json)
  | obj (fields : List (String × Json))

/-- JavaScript property read `j["k"]`: it throws a `TypeError` when `j` is
`null` (modelled as `Except.error`), yields the field — or `undefined`
(`none`) — for an object, and yields `undefined` for any other value
(primitives are boxed, arrays simply lack the field). -/
def jsGetProp : Json → String → Except Unit (Option Json)
  | .null, _ => .error ()
  | .obj fields, k => .ok ((fields.find? (fun e => e.1 == k)).map (·.2))
  | _, _ => .ok none

/-- JavaScript truthiness of a JSON value. -/
def jsTruthy : Json → Bool
  | .null => false
  | .bool b => b
  | .num n => n ≠ 0
  | .str s => s ≠ ""
  | .arr _ => true
  | .obj _ => true

/-- JavaScript `typeof v === 'object'` for a JSON value. -/
def jsTypeofObject : Json → Bool
  | .null => true
  | .obj _ => true
  | .arr _ => true
  | _ => false

/-- The values iterated by `Object.entries(config.vaults)` (for an array,
its elements in order; for an object, its field values in order). -/
def jsEntriesValues : Json → List Json
  | .obj fields => fields.map (·.2)
  | .arr xs => xs
  | _ => []

/-- The `for (const [, vaultData] of Object.entries(config.vaults))` loop of
`parseObsidianConfig`.  Reading `vault.path` throws a `TypeError` on a
`null` entry, and a truthy non-string `path` value reaches
`path.basename`, which also throws (both modelled as `Except.error`); the
loop otherwise inserts `basename(path) → path` for each truthy string
`path` and skips falsy ones. -/
def addVaultEntries : List Json → VaultMap → Except Unit VaultMap
  | [], m => .ok m
  | vd :: rest, m =>
    match jsGetProp vd "path" with
    | .error _ => .error ()
    | .ok none => addVaultEntries rest m
    | .ok (some pj) =>
      if jsTruthy pj then
        match pj with
        | .str s => addVaultEntries rest (insertVault m (strBasename s) s)
        | _ => .error ()
      else addVaultEntries rest m

/-- `parseObsidianConfig` from `src/config.ts`.  The `JSON.parse` step is
modelled by the `Option Json` argument: `none` is a parse exception, which
the surrounding `try`/`catch` turns into the empty mapping, as it does a
`TypeError` thrown by `config.vaults` on a `null` document or anywhere
inside the loop. -/
def parseObsidianConfig (parsed : Option Json) : VaultMap :=
  match parsed with
  | none => []
  | some config =>
    match jsGetProp config "vaults" with
    | .error _ => []
    | .ok none => []
    | .ok (some v) =>
      if ¬ jsTruthy v then []
      else if ¬ jsTypeofObject v then []
      else
        match addVaultEntries (jsEntriesValues v) [] with
        | .ok m => m
        | .error _ => []



/-! ## `src/journal.ts`: data model -/

/-- The structured thoughts argument of `writeThoughts` (each section an
optional string; `none` models a JavaScript `undefined` field). -/
structure Thoughts where
  feelings : Option String
  project_notes : Option String
  user_context : Option String
  technical_insights : Option String
  world_knowledge : Option String
deriving DecidableEq

/-- `JournalMetadata` from `src/journal.ts`. -/
structure JournalMetadata where
  project : Option String
  agent : Option String
deriving DecidableEq

/-- A `Date` value abstracted to the renderings the journal code extracts
from it: `formatDate`, `formatTimestamp`, `toLocaleTimeString`,
`toLocaleDateString`, `toISOString` and `getTime`. -/
structure Timestamp where
  dateString : String
  timeString : String
  timeDisplay : String
  dateDisplay : String
  isoString : String
  epochMs : Int
deriving DecidableEq

/-- The persisted embedding record (`EmbeddingData` in `src/embeddings.ts`),
with the vector over the integers (the model is a black box). -/
structure EmbeddingData where
  embedding : List Int
  text : String
  sections : List String
  timestamp : Int
  path : String
deriving DecidableEq

/-- A file's contents: journal markdown text, or a serialized embedding
record (serialization being invertible, the record itself is stored). -/
inductive FileContent where
  | text (s : String)
  | emb (d : EmbeddingData)
deriving DecidableEq

/-- The filesystem: an association list from absolute path to contents. -/
abbrev FS := List (String × FileContent)

/-- Read a file if it exists. -/
def fsRead (fs : FS) (p : String) : Option FileContent :=
  (fs.find? (fun e => e.1 == p)).map (·.2)

/-- `fs.access`-style existence check. -/
def fsExists (fs : FS) (p : String) : Bool :=
  (fs.find? (fun e => e.1 == p)).isSome

/-- `fs.writeFile`: create or overwrite the file at `p`. -/
def fsWrite (fs : FS) (p : String) (v : FileContent) : FS :=
  (p, v) :: fs.filter (fun e => !(e.1 == p))

/-- `fs.readFile(p, 'utf8')` of a markdown file. -/
def readFileText (fs : FS) (p : String) : String :=
  match fsRead fs p with
  | some (.text s) => s
  | _ => ""

/-- Entries returned by `fs.readdir(dir)`: the distinct first segments of
paths lying strictly under `dir`. -/
def readdirNames (fs : FS) (dir : String) : List String :=
  (fs.filterMap (fun e =>
    if (dir.data ++ ['/']).isPrefixOf e.1.data then
      some (String.mk ((e.1.data.drop (dir.data.length + 1)).takeWhile (fun c => !(isSlash c))))
    else none)).dedup

/-- `(await fs.stat(p)).isDirectory()`: some file lies strictly below `p`. -/
def isDirectoryFs (fs : FS) (p : String) : Bool :=
  fs.any (fun e => (p.data ++ ['/']).isPrefixOf e.1.data)

/-- The number of markdown files in a filesystem state. -/
def mdFileCount (fs : FS) : Nat :=
  (fs.filter (fun e => strEndsWith e.1 ".md")).length

/-- Outcomes of the fallible asynchronous steps of one write or one
embedding generation, supplied as an explicit oracle. -/
structure FsOracle where
  mkdirOk : Bool
  writeFileOk : Bool
  extractOk : Bool
  embedOk : Bool
  saveOk : Bool
deriving DecidableEq

/-- The all-successful oracle. -/
def FsOracle.allOk : FsOracle := ⟨true, true, true, true, true⟩

/-! ## Embedding service model (`src/embeddings.ts` is absent from `src/`) -/

/-- Modelled from the spec: `src/embeddings.ts` is not among the sources.
§4.3 `extractSearchableText` strips the leading frontmatter block delimited
by `---` lines and strips `## ` section-header markup, returning the
remaining body text together with the section names in document order. -/
def extractSearchableText (content : String) : String × List String :=
  let lines := strLines content
  let body :=
    match lines with
    | "---" :: rest => ((rest.dropWhile (fun l => ¬ (l = "---"))).drop 1)
    | _ => lines
  let sections := body.filterMap (fun l =>
    if strStartsWith l "## " then some (String.mk (l.data.drop 3)) else none)
  let textLines := body.filter (fun l => !(strStartsWith l "## "))
  (String.intercalate "\n" textLines, sections)

/-- Modelled from the spec: the embedding model is a black-box function from
text to a fixed-length numeric vector (§1, §4.3); its values are irrelevant
to the claims, so a simple deterministic stand-in is used. -/
def embedModel (text : String) : List Int :=
  [Int.ofNat text.data.length]

/-- Modelled from the spec: `src/embeddings.ts` is not among the sources.
Per §4.1/§4.3, the design plan and `tests/embeddings.test.ts`,
`saveEmbedding(filePath, data, isUserJournal)` persists the record at
`getEmbeddingPathForFile(filePath, isUserJournal)`. -/
def saveEmbedding (env : Env) (filePath : String) (d : EmbeddingData)
    (isUserJournal : Bool) (fs : FS) : FS :=
  fsWrite fs (getEmbeddingPathForFile env filePath isUserJournal) (.emb d)

/-! ## `src/journal.ts`: write path -/

/-- `generateEmbeddingForEntry` from `src/journal.ts`.  The whole body is in
a `try`/`catch` that logs and swallows failures, so the function always
returns a filesystem (never an error).  `userPath` is the manager's resolved
user-journal path, `tsMs` the `timestamp.getTime()` value. -/
def generateEmbeddingForEntry (o : FsOracle) (env : Env) (userPath : String)
    (filePath content : String) (tsMs : Int) (fs : FS) : FS :=
  if !o.extractOk then fs
  else
    let r := extractSearchableText content
    if strTrim r.1 == "" then fs
    else if !o.embedOk then fs
    else
      let data : EmbeddingData := ⟨embedModel r.1, r.1, r.2, tsMs, filePath⟩
      let isUserJournal := strStartsWith filePath userPath
      if !o.saveOk then fs
      else saveEmbedding env filePath data isUserJournal fs

/-- The markdown path produced for one destination root and timestamp:
`path.join(path.join(basePath, dateString), timeString + '.md')`. -/
def mdPathOf (basePath : String) (ts : Timestamp) : String :=
  posixJoin (posixJoin basePath ts.dateString) (ts.timeString ++ ".md")

/-- The section bodies pushed by `formatThoughts` (each present, truthy
section contributes one `## Title` block, in declaration order). -/
def buildSections (t : Thoughts) : List String :=
  (if truthyS t.feelings then ["## Feelings\n\n" ++ t.feelings.getD ""] else [])
  ++ (if truthyS t.project_notes then ["## Project Notes\n\n" ++ t.project_notes.getD ""] else [])
  ++ (if truthyS t.user_context then ["## User Context\n\n" ++ t.user_context.getD ""] else [])
  ++ (if truthyS t.technical_insights then ["## Technical Insights\n\n" ++ t.technical_insights.getD ""] else [])
  ++ (if truthyS t.world_knowledge then ["## World Knowledge\n\n" ++ t.world_knowledge.getD ""] else [])

/-- The tag list built by `formatThoughts`: always `agentic-journal`, then
one tag per truthy section, in declaration order. -/
def buildTags (t : Thoughts) : List String :=
  ["agentic-journal"]
  ++ (if truthyS t.feelings then ["feelings"] else [])
  ++ (if truthyS t.project_notes then ["project-notes"] else [])
  ++ (if truthyS t.user_context then ["user-context"] else [])
  ++ (if truthyS t.technical_insights then ["technical-insights"] else [])
  ++ (if truthyS t.world_knowledge then ["world-knowledge"] else [])

/-- `formatThoughts` from `src/journal.ts`: frontmatter (title, date,
timestamp, optional project/agent, tags) followed by the section bodies. -/
def formatThoughts (t : Thoughts) (ts : Timestamp) (metadata : Option JournalMetadata) : String :=
  let fm1 := "---\ntitle: \"" ++ ts.timeDisplay ++ " - " ++ ts.dateDisplay
    ++ "\"\ndate: " ++ ts.isoString ++ "\ntimestamp: " ++ toString ts.epochMs
  let fm2 := fm1 ++ (match metadata with
    | some m => if truthyS m.project then "\nproject: " ++ m.project.getD "" else ""
    | none => "")
  let fm3 := fm2 ++ (match metadata with
    | some m => if truthyS m.agent then "\nagent: " ++ m.agent.getD "" else ""
    | none => "")
  let fm4 := fm3 ++ "\ntags:\n"
    ++ String.join ((buildTags t).map (fun tag => "  - " ++ tag ++ "\n"))
  let fm5 := fm4 ++ "---\n"
  fm5 ++ "\n" ++ String.intercalate "\n\n" (buildSections t) ++ "\n"

/-- `writeThoughtsToLocation` from `src/journal.ts`: ensure the day
directory, write the markdown file, then attempt embedding generation.
Directory-creation and markdown-write failures surface as `Except.error`;
the embedding step never fails the call. -/
def writeThoughtsToLocation (o : FsOracle) (env : Env) (userPath : String)
    (t : Thoughts) (ts : Timestamp) (basePath : String)
    (metadata : Option JournalMetadata) (fs : FS) : Except String FS :=
  let dayDirectory := posixJoin basePath ts.dateString
  let filePath := posixJoin dayDirectory (ts.timeString ++ ".md")
  if !o.mkdirOk then
    .error ("Failed to create journal directory at " ++ dayDirectory)
  else if !o.writeFileOk then .error "writeFile failed"
  else
    let formattedEntry := formatThoughts t ts metadata
    let fs1 := fsWrite fs filePath (.text formattedEntry)
    .ok (generateEmbeddingForEntry o env userPath filePath formattedEntry ts.epochMs fs1)

/-- `resolveUserJournalPath` of the `JournalManager`: a truthy explicit
constructor path wins, otherwise the environment resolution. -/
def resolveUserJournalPathJM (env : Env) (vaults : VaultMap)
    (explicitUserPath : Option String) : String :=
  match explicitUserPath with
  | some p => if p ≠ "" then p else (getUserJournalPath env vaults).path
  | none => (getUserJournalPath env vaults).path

/-- Whether any user-global section of the split is defined
(`Object.values(userThoughts).some(value => value !== undefined)`). -/
def anyUserDefined (t : Thoughts) : Bool :=
  t.feelings.isSome || t.user_context.isSome
    || t.technical_insights.isSome || t.world_knowledge.isSome

/-- The project-local split of `writeThoughts`. -/
def projectSplit (t : Thoughts) : Thoughts :=
  ⟨none, t.project_notes, none, none, none⟩

/-- The user-global split of `writeThoughts`. -/
def userSplit (t : Thoughts) : Thoughts :=
  ⟨t.feelings, none, t.user_context, t.technical_insights, t.world_knowledge⟩

/-- `writeThoughts` from `src/journal.ts`: split the sections, write the
project split to the project root when `project_notes` is truthy, then
write the user split to the resolved user root when any user section is
defined. -/
def writeThoughts (o : FsOracle) (env : Env) (vaults : VaultMap)
    (projectJournalPath : String) (explicitUserPath : Option String)
    (t : Thoughts) (ts : Timestamp) (metadata : Option JournalMetadata)
    (fs : FS) : Except String FS :=
  match (if truthyS (projectSplit t).project_notes then
      writeThoughtsToLocation o env (resolveUserJournalPathJM env vaults explicitUserPath)
        (projectSplit t) ts projectJournalPath metadata fs
    else .ok fs) with
  | .error e => .error e
  | .ok fs1 =>
    if anyUserDefined t then
      writeThoughtsToLocation o env (resolveUserJournalPathJM env vaults explicitUserPath)
        (userSplit t) ts (resolveUserJournalPathJM env vaults explicitUserPath) metadata fs1
    else .ok fs1

/-- The filesystem produced by a successful `writeThoughtsToLocation`. -/
def wtlResultFS (o : FsOracle) (env : Env) (up : String) (t : Thoughts)
    (ts : Timestamp) (basePath : String) (md : Option JournalMetadata) (fs : FS) : FS :=
  generateEmbeddingForEntry o env up (mdPathOf basePath ts)
    (formatThoughts t ts md) ts.epochMs
    (fsWrite fs (mdPathOf basePath ts) (.text (formatThoughts t ts md)))

/-- The filesystem after the project-split step of `writeThoughts`. -/
def projStepFS (env : Env) (vaults : VaultMap) (expU : Option String)
    (pPath : String) (t : Thoughts) (ts : Timestamp)
    (md : Option JournalMetadata) (fs : FS) : FS :=
  if truthyS t.project_notes then
    wtlResultFS FsOracle.allOk env (resolveUserJournalPathJM env vaults expU)
      (projectSplit t) ts pPath md fs
  else fs

/-- The filesystem after the user-split step of `writeThoughts`. -/
def userStepFS (env : Env) (vaults : VaultMap) (expU : Option String)
    (t : Thoughts) (ts : Timestamp) (md : Option JournalMetadata) (fs : FS) : FS :=
  if anyUserDefined t then
    wtlResultFS FsOracle.allOk env (resolveUserJournalPathJM env vaults expU)
      (userSplit t) ts (resolveUserJournalPathJM env vaults expU) md fs
  else fs

/-- Markdown-file count of a write result (`0` for a failed call). -/
def mdCountOfResult : Except String FS → Nat
  | .ok fs => mdFileCount fs
  | .error _ => 0

/-- Read a path out of a write result. -/
def readOfResult (r : Except String FS) (p : String) : Option FileContent :=
  match r with
  | .ok fs => fsRead fs p
  | .error _ => none

/-! ## `src/journal.ts`: reconciliation scanner -/

/-- The strict `^\d{4}-\d{2}-\d{2}$` day-directory test. -/
def matchesDateDir (s : String) : Bool :=
  match s.data with
  | [a, b, c, d, '-', e, f, '-', g, h] => [a, b, c, d, e, f, g, h].all Char.isDigit
  | _ => false

/-- Two-digit character pair to a number. -/
def digits2 (a b : Char) : Nat :=
  (a.toNat - 48) * 10 + (b.toNat - 48)

/-- The `^(\d{2})-(\d{2})-(\d{2})-\d{6}$` filename match of
`extractTimestampFromPath`. -/
def timeMatch : List Char → Option (Nat × Nat × Nat)
  | [h1, h2, '-', m1, m2, '-', s1, s2, '-', u1, u2, u3, u4, u5, u6] =>
    if [h1, h2, m1, m2, s1, s2, u1, u2, u3, u4, u5, u6].all Char.isDigit then
      some (digits2 h1 h2, digits2 m1 m2, digits2 s1 s2)
    else none
  | _ => none

/-- The `^(\d{4})-(\d{2})-(\d{2})$` directory match of
`extractTimestampFromPath`. -/
def dateMatch : List Char → Option (Nat × Nat × Nat)
  | [y1, y2, y3, y4, '-', m1, m2, '-', d1, d2] =>
    if [y1, y2, y3, y4, m1, m2, d1, d2].all Char.isDigit then
      some (digits2 y1 y2 * 100 + digits2 y3 y4, digits2 m1 m2, digits2 d1 d2)
    else none
  | _ => none

/-- `extractTimestampFromPath` from `src/journal.ts`, with the constructed
`Date` abstracted to an injective numeric encoding of its components (the
epoch value is never interpreted by the claims at issue). -/
def extractTimestampFromPath (filePath : String) : Option Int :=
  match timeMatch (strBasenameExt filePath ".md").data with
  | none => none
  | some (hh, mm, ss) =>
    match dateMatch (strBasename (strDirname filePath)).data with
    | none => none
    | some (y, mo, d) =>
      some (Int.ofNat (((y * 100 + mo) * 100 + d) * 1000000 + hh * 10000 + mm * 100 + ss))

/-- One markdown file of the day-directory loop in
`generateMissingEmbeddings`: check for the embedding alongside the file
(`mdPath.replace(/\.md$/, '.embedding')`) and regenerate when absent. -/
def scanMdFile (o : FsOracle) (env : Env) (userPath : String) (nowMs : Int)
    (dayPath : String) (acc : Nat × FS) (mdFile : String) : Nat × FS :=
  let mdPath := posixJoin dayPath mdFile
  let embeddingPath := replaceMdSuffix mdPath
  if fsExists acc.2 embeddingPath then acc
  else
    let content := readFileText acc.2 mdPath
    let tsMs := (extractTimestampFromPath mdPath).getD nowMs
    (acc.1 + 1, generateEmbeddingForEntry o env userPath mdPath content tsMs acc.2)

/-- One entry of the root loop in `generateMissingEmbeddings`: skip entries
that are not directories or not day-named, otherwise process the markdown
files inside. -/
def scanDayDir (o : FsOracle) (env : Env) (userPath : String) (nowMs : Int)
    (basePath : String) (acc : Nat × FS) (dayDir : String) : Nat × FS :=
  let dayPath := posixJoin basePath dayDir
  if !(isDirectoryFs acc.2 dayPath && matchesDateDir dayDir) then acc
  else
    let mdFiles := (readdirNames acc.2 dayPath).filter (fun f => strEndsWith f ".md")
    mdFiles.foldl (scanMdFile o env userPath nowMs dayPath) acc

/-- One root of `generateMissingEmbeddings` (a missing root directory lists
no entries, matching the swallowed `ENOENT`). -/
def scanRoot (o : FsOracle) (env : Env) (userPath : String) (nowMs : Int)
    (acc : Nat × FS) (basePath : String) : Nat × FS :=
  (readdirNames acc.2 basePath).foldl (scanDayDir o env userPath nowMs basePath) acc

/-- `generateMissingEmbeddings` from `src/journal.ts`: walk the project root
then the resolved user root, regenerating an embedding for every markdown
file with no `.embedding` neighbour, and return the count with the final
filesystem. -/
def generateMissingEmbeddings (o : FsOracle) (env : Env)
    (projectJournalPath userPath : String) (nowMs : Int) (fs : FS) : Nat × FS :=
  [projectJournalPath, userPath].foldl (scanRoot o env userPath nowMs) (0, fs)

/-! Specification-side twin of the scanner, following the spec's words for
the return value: it collects the list of markdown files that were found
without an embedding at the checked location during the scan (each of which
the scanner then attempts to regenerate, whether or not generation persists
anything). -/

/-- Twin of `scanMdFile` accumulating the checked-and-missing paths. -/
def scanMdFileLog (o : FsOracle) (env : Env) (userPath : String) (nowMs : Int)
    (dayPath : String) (acc : List String × FS) (mdFile : String) : List String × FS :=
  let mdPath := posixJoin dayPath mdFile
  let embeddingPath := replaceMdSuffix mdPath
  if fsExists acc.2 embeddingPath then acc
  else
    let content := readFileText acc.2 mdPath
    let tsMs := (extractTimestampFromPath mdPath).getD nowMs
    (acc.1 ++ [mdPath], generateEmbeddingForEntry o env userPath mdPath content tsMs acc.2)

/-- Twin of `scanDayDir`. -/
def scanDayDirLog (o : FsOracle) (env : Env) (userPath : String) (nowMs : Int)
    (basePath : String) (acc : List String × FS) (dayDir : String) : List String × FS :=
  let dayPath := posixJoin basePath dayDir
  if !(isDirectoryFs acc.2 dayPath && matchesDateDir dayDir) then acc
  else
    let mdFiles := (readdirNames acc.2 dayPath).filter (fun f => strEndsWith f ".md")
    mdFiles.foldl (scanMdFileLog o env userPath nowMs dayPath) acc

/-- Twin of `scanRoot`. -/
def scanRootLog (o : FsOracle) (env : Env) (userPath : String) (nowMs : Int)
    (acc : List String × FS) (basePath : String) : List String × FS :=
  (readdirNames acc.2 basePath).foldl (scanDayDirLog o env userPath nowMs basePath) acc

/-- The markdown files found without an embedding at the checked location
during one reconciliation scan, with the resulting filesystem. -/
def missingEmbeddingLog (o : FsOracle) (env : Env)
    (projectJournalPath userPath : String) (nowMs : Int) (fs : FS) : List String × FS :=
  [projectJournalPath, userPath].foldl (scanRootLog o env userPath nowMs) ([], fs)

/-! ## Concrete fixtures used by counterexamples and witnesses -/

/-- Environment with the named-vault indicator set (synced-vault mode). -/
def obsEnv : Env := ⟨none, some "V", none, some "/h", none⟩

/-- A user-root markdown entry synced into the vault, with no embedding. -/
def obsFs : FS :=
  [("/vault/agentic-journal/2025-12-22/14-30-45-123456.md",
    .text "---\ntitle: x\n---\n\nHello")]

/-- Environment with neither override nor vault indicator (default mode). -/
def defEnv : Env := ⟨none, none, none, some "/h", none⟩

/-- A markdown entry whose searchable text is empty (frontmatter only). -/
def emptyTextFs : FS :=
  [("/user/2025-01-02/10-20-30-000000.md", .text "---\ntitle: x\n---\n")]

/-- The design-document example timestamp. -/
def tsA : Timestamp :=
  ⟨"2025-12-22", "14-30-45-123456", "2:30:45 PM", "December 22, 2025",
   "2025-12-22T14:30:45.000Z", 1734890445000⟩

/-- Scenario A thoughts: only a feelings section, no metadata. -/
def thoughtsA : Thoughts := ⟨some "I feel great", none, none, none, none⟩

/-- Scenario B thoughts: a project section and a user section. -/
def thoughtsB : Thoughts := ⟨some "y", some "x", none, none, none⟩

/-- Defined-but-empty sections for the emptiness-test asymmetry. -/
def thoughtsC : Thoughts := ⟨some "", some "", none, none, none⟩

/-- All user-global sections are absent or the empty string. -/
def allUserBlank (t : Thoughts) : Bool :=
  (t.feelings.getD "" == "") && (t.user_context.getD "" == "")
    && (t.technical_insights.getD "" == "") && (t.world_knowledge.getD "" == "")

/-- Specification-side tag list: one tag per present (truthy) section, in
section-declaration order. -/
def sectionTagList (t : Thoughts) : List String :=
  ([(t.feelings, "feelings"), (t.project_notes, "project-notes"),
    (t.user_context, "user-context"), (t.technical_insights, "technical-insights"),
    (t.world_knowledge, "world-knowledge")].filterMap
    (fun pr => if truthyS pr.1 then some pr.2 else none))

/-- Whether the insertion loop cannot throw on these vault entries: no
entry is `null` and every truthy `path` value is a string. -/
def goodPathEntries (l : List Json) : Bool :=
  l.all fun vd =>
    match jsGetProp vd "path" with
    | .error _ => false
    | .ok none => true
    | .ok (some pj) => !(jsTruthy pj) || (match pj with | .str _ => true | _ => false)

/-- Specification-side vault fold, following the spec's words: for each
entry carrying a usable (truthy string) path, insert a mapping from the
path's final segment to that path. -/
def specVaultFoldFrom (l : List Json) (m : VaultMap) : VaultMap :=
  l.foldl (fun m vd =>
    match jsGetProp vd "path" with
    | .ok (some (.str s)) => if s ≠ "" then insertVault m (strBasename s) s else m
    | _ => m) m

/-- Specification-side vault mapping of a registry document. -/
def specVaultFold (l : List Json) : VaultMap :=
  specVaultFoldFrom l []

/-- Success test for a write result. -/
def isOkE : Except String FS → Bool
  | .ok _ => true
  | .error _ => false

/-! ## List and string lemmas -/

theorem allTakeWhileAppend {α : Type} (p : α → Bool) (l1 l2 : List α)
    (h : l1.all p = true) : (l1 ++ l2).takeWhile p = l1 ++ l2.takeWhile p := by
  induction l1 with
  | nil => rfl
  | cons a t ih =>
    simp only [List.all_cons, Bool.and_eq_true] at h
    simp [List.takeWhile_cons, h.1, ih h.2]

theorem allDropWhileAppend {α : Type} (p : α → Bool) (l1 l2 : List α)
    (h : l1.all p = true) : (l1 ++ l2).dropWhile p = l2.dropWhile p := by
  induction l1 with
  | nil => rfl
  | cons a t ih =>
    simp only [List.all_cons, Bool.and_eq_true] at h
    simp [List.dropWhile_cons, h.1, ih h.2]

theorem dropWhileConsFalse {α : Type} {p : α → Bool} {a : α} (l : List α)
    (h : p a = false) : (a :: l).dropWhile p = a :: l := by
  simp [List.dropWhile_cons, h]

theorem takeWhileConsFalse {α : Type} {p : α → Bool} {a : α} (l : List α)
    (h : p a = false) : (a :: l).takeWhile p = [] := by
  simp [List.takeWhile_cons, h]

theorem strDataAppend (a b : String) : (a ++ b).data = a.data ++ b.data :=
  String.data_append a b

theorem strNeOfDataNe {a b : String} (h : a.data ≠ b.data) : a ≠ b :=
  fun hab => h (by rw [hab])

theorem endsWithOfDataSuffix {a s : String} (t : List Char)
    (h : a.data = t ++ s.data) : strEndsWith a s = true := by
  unfold strEndsWith
  rw [List.isSuffixOf_iff_suffix, h]
  exact List.suffix_append t s.data

theorem endsWithExists {a s : String} (h : strEndsWith a s = true) :
    ∃ t, a.data = t ++ s.data := by
  unfold strEndsWith at h
  rw [List.isSuffixOf_iff_suffix] at h
  obtain ⟨t, ht⟩ := h
  exact ⟨t, ht.symm⟩

theorem mdNeEmbedding {a b : String} (ha : strEndsWith a ".md" = true)
    (hb : strEndsWith b ".embedding" = true) : a ≠ b := by
  obtain ⟨ta, hta⟩ := endsWithExists ha
  obtain ⟨tb, htb⟩ := endsWithExists hb
  intro hab
  have hd : a.data = b.data := by rw [hab]
  rw [hta, htb] at hd
  have hlast : ((ta ++ ".md".data).getLast? = ((tb ++ ".embedding".data)).getLast?) := by
    rw [hd]
  have h1 : (ta ++ ".md".data).getLast? = some 'd' := by
    show (ta ++ (['.', 'm'] ++ ['d'])).getLast? = some 'd'
    rw [← List.append_assoc]
    exact List.getLast?_concat _
  have h2 : (tb ++ ".embedding".data).getLast? = some 'g' := by
    show (tb ++ (['.', 'e', 'm', 'b', 'e', 'd', 'd', 'i', 'n'] ++ ['g'])).getLast? = some 'g'
    rw [← List.append_assoc]
    exact List.getLast?_concat _
  rw [h1, h2] at hlast
  exact absurd (Option.some.inj hlast) (by decide)

theorem findFilterNe (fs : FS) {p q : String} (h : p ≠ q) :
    (fs.filter (fun e => !(e.1 == q))).find? (fun e => e.1 == p)
      = fs.find? (fun e => e.1 == p) := by
  induction fs with
  | nil => rfl
  | cons e t ih =>
    by_cases hq : e.1 = q
    · have h1 : (e.1 == q) = true := by simp [hq]
      have h2 : (e.1 == p) = false := by simp [hq]; exact fun hpq => h hpq.symm
      simp [List.filter_cons, h1, List.find?_cons, h2, ih]
    · have h1 : (e.1 == q) = false := by simp [hq]
      by_cases hp : e.1 = p
      · have h2 : (e.1 == p) = true := by simp [hp]
        simp [List.filter_cons, h1, List.find?_cons, h2]
      · have h2 : (e.1 == p) = false := by simp [hp]
        simp [List.filter_cons, h1, List.find?_cons, h2, ih]

theorem fsReadFsWrite (fs : FS) (p q : String) (v : FileContent) :
    fsRead (fsWrite fs q v) p = if p = q then some v else fsRead fs p := by
  by_cases h : p = q
  · subst h
    simp [fsRead, fsWrite, List.find?_cons]
  · have h2 : (q == p) = false := by simp; exact fun hqp => h hqp.symm
    simp only [fsRead, fsWrite, List.find?_cons, h2, if_neg h]
    rw [findFilterNe fs h]

theorem mdPathOfEndsWith (basePath : String) (ts : Timestamp) :
    strEndsWith (mdPathOf basePath ts) ".md" = true := by
  apply endsWithOfDataSuffix
      ((posixJoin basePath ts.dateString).data ++ "/".data ++ ts.timeString.data)
  show (posixJoin (posixJoin basePath ts.dateString) (ts.timeString ++ ".md")).data = _
  unfold posixJoin
  simp [strDataAppend]

theorem embPathEndsWith (env : Env) (p : String) (b : Bool)
    (hp : strEndsWith p ".md" = true) :
    strEndsWith (getEmbeddingPathForFile env p b) ".embedding" = true := by
  unfold getEmbeddingPathForFile
  by_cases hmode : (b && isObsidianMode env) = true
  · rw [if_pos hmode]
    by_cases hl : truthyS env.localAppData = true
    · rw [if_pos hl]
      apply endsWithOfDataSuffix
          ((getEmbeddingCachePath env).data ++ "\\".data
            ++ (strBasename (strDirname p)).data ++ "--".data ++ (strBasenameExt p ".md").data)
      unfold win32Join
      simp [strDataAppend]
    · rw [if_neg hl]
      apply endsWithOfDataSuffix
          ((getEmbeddingCachePath env).data ++ "/".data
            ++ (strBasename (strDirname p)).data ++ "--".data ++ (strBasenameExt p ".md").data)
      unfold posixJoin
      simp [strDataAppend]
  · rw [if_neg hmode]
    unfold replaceMdSuffix
    rw [if_pos hp]
    exact endsWithOfDataSuffix _ rfl

theorem genPreservesMd (o : FsOracle) (env : Env) (up fp c : String) (tm : Int)
    (fs : FS) (p : String) (hfp : strEndsWith fp ".md" = true)
    (hp : strEndsWith p ".md" = true) :
    fsRead (generateEmbeddingForEntry o env up fp c tm fs) p = fsRead fs p := by
  have hne : p ≠ getEmbeddingPathForFile env fp (strStartsWith fp up) :=
    mdNeEmbedding hp (embPathEndsWith env fp _ hfp)
  unfold generateEmbeddingForEntry saveEmbedding
  by_cases h1 : (!o.extractOk) = true
  · rw [if_pos h1]
  · rw [if_neg h1]
    by_cases h2 : (strTrim (extractSearchableText c).1 == "") = true
    · rw [if_pos h2]
    · rw [if_neg h2]
      by_cases h3 : (!o.embedOk) = true
      · rw [if_pos h3]
      · rw [if_neg h3]
        by_cases h4 : (!o.saveOk) = true
        · rw [if_pos h4]
        · rw [if_neg h4]
          rw [fsReadFsWrite, if_neg hne]

theorem wtlOk (o : FsOracle) (env : Env) (up : String) (t : Thoughts)
    (ts : Timestamp) (basePath : String) (md : Option JournalMetadata) (fs : FS)
    (h1 : o.mkdirOk = true) (h2 : o.writeFileOk = true) :
    writeThoughtsToLocation o env up t ts basePath md fs
      = .ok (generateEmbeddingForEntry o env up (mdPathOf basePath ts)
          (formatThoughts t ts md) ts.epochMs
          (fsWrite fs (mdPathOf basePath ts) (.text (formatThoughts t ts md)))) := by
  unfold writeThoughtsToLocation mdPathOf
  rw [h1, h2]
  rfl

theorem wtlError (o : FsOracle) (env : Env) (up : String) (t : Thoughts)
    (ts : Timestamp) (basePath : String) (md : Option JournalMetadata) (fs : FS)
    (h : o.mkdirOk = false ∨ o.writeFileOk = false) :
    isOkE (writeThoughtsToLocation o env up t ts basePath md fs) = false := by
  unfold writeThoughtsToLocation
  rcases h with h | h
  · rw [h]; rfl
  · rw [h]
    by_cases h1 : (!o.mkdirOk) = true
    · rw [if_pos h1]; rfl
    · rw [if_neg h1]; rfl

theorem pathFormData (base date time : String) :
    (base ++ "/" ++ date ++ "/" ++ time ++ ".md").data
      = base.data ++ '/' :: (date.data ++ '/' :: (time.data ++ ['.', 'm', 'd'])) := by
  simp [strDataAppend]

theorem dirnameOfForm (base date time : String)
    (ht : time.data.all (fun c => !(isSlash c)) = true) :
    strDirname (base ++ "/" ++ date ++ "/" ++ time ++ ".md") = base ++ "/" ++ date := by
  apply String.ext
  unfold strDirname
  rw [pathFormData]
  show dirnameData _ = _
  unfold dirnameData
  have hrev : (base.data ++ '/' :: (date.data ++ '/' :: (time.data ++ ['.', 'm', 'd']))).reverse
      = 'd' :: 'm' :: '.' :: (time.data.reverse
          ++ ('/' :: (date.data.reverse ++ ('/' :: base.data.reverse)))) := by
    simp
  rw [hrev]
  rw [dropWhileConsFalse _ (by decide)]
  have hall : (('d' :: 'm' :: '.' :: time.data.reverse).all (fun c => !(isSlash c))) = true := by
    simp only [List.all_cons, Bool.and_eq_true]
    refine ⟨by decide, by decide, by decide, ?_⟩
    rw [List.all_reverse]
    exact ht
  have hstep : ('d' :: 'm' :: '.' :: (time.data.reverse
        ++ ('/' :: (date.data.reverse ++ ('/' :: base.data.reverse))))).dropWhile
          (fun c => !(isSlash c))
      = '/' :: (date.data.reverse ++ ('/' :: base.data.reverse)) := by
    have := allDropWhileAppend (fun c => !(isSlash c))
      ('d' :: 'm' :: '.' :: time.data.reverse)
      ('/' :: (date.data.reverse ++ ('/' :: base.data.reverse))) hall
    simpa using this
  rw [hstep]
  have hne : date.data.reverse ++ ('/' :: base.data.reverse) ≠ [] := by
    simp
  show (if (date.data.reverse ++ '/' :: base.data.reverse) = [] then
      (if (base.data ++ '/' :: (date.data ++ '/' :: (time.data ++ ['.', 'm', 'd']))).head? = some '/'
        then ['/'] else ['.'])
    else (date.data.reverse ++ '/' :: base.data.reverse).reverse) = (base ++ "/" ++ date).data
  rw [if_neg hne]
  simp [strDataAppend]

theorem basenameOfJoin (base date : String)
    (hd : date.data.all (fun c => !(isSlash c)) = true) (hdne : date ≠ "") :
    strBasename (base ++ "/" ++ date) = date := by
  apply String.ext
  unfold strBasename
  have hdata : (base ++ "/" ++ date).data = base.data ++ '/' :: date.data := by
    simp [strDataAppend]
  rw [hdata]
  show basenameData _ = _
  unfold basenameData
  have hrevne : date.data.reverse ≠ [] := by
    simp
    intro h
    exact hdne (String.ext (h ▸ rfl))
  obtain ⟨c, tl, hct⟩ := List.exists_cons_of_ne_nil hrevne
  have hrev : (base.data ++ '/' :: date.data).reverse
      = date.data.reverse ++ ('/' :: base.data.reverse) := by
    simp
  rw [hrev, hct]
  have hcall : ((c :: tl).all (fun x => !(isSlash x))) = true := by
    rw [← hct, List.all_reverse]
    exact hd
  have hc : isSlash c = false := by
    simp only [List.all_cons, Bool.and_eq_true] at hcall
    simpa using hcall.1
  rw [show (c :: tl) ++ ('/' :: base.data.reverse)
      = c :: (tl ++ ('/' :: base.data.reverse)) from rfl]
  rw [dropWhileConsFalse _ hc]
  rw [show c :: (tl ++ ('/' :: base.data.reverse))
      = (c :: tl) ++ ('/' :: base.data.reverse) from rfl]
  rw [allTakeWhileAppend _ _ _ hcall]
  rw [takeWhileConsFalse _ (by decide)]
  rw [List.append_nil, ← hct, List.reverse_reverse]

theorem basenameExtOfForm (base date time : String)
    (ht : time.data.all (fun c => !(isSlash c)) = true) (htne : time ≠ "") :
    strBasenameExt (base ++ "/" ++ date ++ "/" ++ time ++ ".md") ".md" = time := by
  have hb : basenameData (base ++ "/" ++ date ++ "/" ++ time ++ ".md").data
      = time.data ++ ['.', 'm', 'd'] := by
    rw [pathFormData]
    unfold basenameData
    have hrev : (base.data ++ '/' :: (date.data ++ '/' :: (time.data ++ ['.', 'm', 'd']))).reverse
        = 'd' :: 'm' :: '.' :: (time.data.reverse
            ++ ('/' :: (date.data.reverse ++ ('/' :: base.data.reverse)))) := by
      simp
    rw [hrev]
    rw [dropWhileConsFalse _ (by decide)]
    have hall : (('d' :: 'm' :: '.' :: time.data.reverse).all (fun c => !(isSlash c))) = true := by
      simp only [List.all_cons, Bool.and_eq_true]
      refine ⟨by decide, by decide, by decide, ?_⟩
      rw [List.all_reverse]
      exact ht
    have hstep := allTakeWhileAppend (fun c => !(isSlash c))
      ('d' :: 'm' :: '.' :: time.data.reverse)
      ('/' :: (date.data.reverse ++ ('/' :: base.data.reverse))) hall
    rw [show ('d' :: 'm' :: '.' :: (time.data.reverse
          ++ ('/' :: (date.data.reverse ++ ('/' :: base.data.reverse)))))
        = ('d' :: 'm' :: '.' :: time.data.reverse)
          ++ ('/' :: (date.data.reverse ++ ('/' :: base.data.reverse))) from by simp]
    rw [hstep]
    rw [takeWhileConsFalse _ (by decide)]
    simp
  unfold strBasenameExt
  rw [hb]
  have htdne : time.data ≠ [] := by
    intro h
    exact htne (String.ext (h ▸ rfl))
  have hcond : (".md".data ≠ [] ∧ (".md".data.isSuffixOf (time.data ++ ['.', 'm', 'd'])) = true
      ∧ time.data ++ ['.', 'm', 'd'] ≠ ".md".data) := by
    refine ⟨by decide, ?_, ?_⟩
    · rw [List.isSuffixOf_iff_suffix]
      exact List.suffix_append time.data _
    · intro h
      have := congrArg List.length h
      simp at this
      exact htdne (List.length_eq_zero.mp this)
  rw [if_pos hcond]
  have hlen : (time.data ++ ['.', 'm', 'd']).length - ".md".data.length = time.data.length := by
    simp
  rw [hlen]
  apply String.ext
  show (time.data ++ ['.', 'm', 'd']).take time.data.length = time.data
  exact List.take_left time.data _

theorem embeddingCacheForm (env : Env) (base date time : String)
    (hm : isObsidianMode env = true) (hl : truthyS env.localAppData = false)
    (hdne : date ≠ "") (htne : time ≠ "")
    (hd : date.data.all (fun c => !(isSlash c)) = true)
    (ht : time.data.all (fun c => !(isSlash c)) = true) :
    getEmbeddingPathForFile env (base ++ "/" ++ date ++ "/" ++ time ++ ".md") true
      = posixJoin (getEmbeddingCachePath env) (date ++ "--" ++ time ++ ".embedding") := by
  unfold getEmbeddingPathForFile
  have hcond : (true && isObsidianMode env) = true := by rw [hm]; rfl
  rw [if_pos hcond]
  have hlcond : ¬ (truthyS env.localAppData = true) := by simp [hl]
  rw [if_neg hlcond]
  rw [dirnameOfForm base date time ht, basenameOfJoin base date hd hdne,
    basenameExtOfForm base date time ht htne]

theorem userPathSkipOverride (env : Env) (vaults : VaultMap)
    (h : truthyS env.agenticJournalPath = false) :
    getUserJournalPath env vaults = getUserJournalPathVault env vaults := by
  cases hp : env.agenticJournalPath with
  | none => simp [getUserJournalPath, hp]
  | some p =>
    rw [hp] at h
    have hpe : p = "" := by simpa [truthyS] using h
    simp [getUserJournalPath, hp, hpe]

theorem isObsidianModeSome {env : Env} {v : String}
    (hvn : env.agenticJournalVault = some v) :
    isObsidianMode env = ((!(v == "")) && (!(strTrim v == ""))) := by
  unfold isObsidianMode
  rw [hvn]

theorem isObsidianModeNone {env : Env} (hvn : env.agenticJournalVault = none) :
    isObsidianMode env = false := by
  unfold isObsidianMode
  rw [hvn]

theorem vaultBranchFound (env : Env) (vaults : VaultMap) (vp : String)
    (hm : isObsidianMode env = true)
    (hv : lookupVault vaults (env.agenticJournalVault.getD "") = some vp) :
    getUserJournalPathVault env vaults = ⟨posixJoin vp "agentic-journal", false⟩ := by
  cases hvn : env.agenticJournalVault with
  | none => rw [isObsidianModeNone hvn] at hm; exact absurd hm (by decide)
  | some v =>
    rw [isObsidianModeSome hvn] at hm
    rw [hvn] at hv
    simp only [Option.getD_some] at hv
    unfold getUserJournalPathVault
    rw [hvn]
    show (if ((!(v == "")) && (!(strTrim v == ""))) = true then _ else _) = _
    rw [if_pos hm, hv]

theorem vaultBranchMissing (env : Env) (vaults : VaultMap)
    (hm : isObsidianMode env = true)
    (hv : lookupVault vaults (env.agenticJournalVault.getD "") = none) :
    getUserJournalPathVault env vaults
      = ⟨resolveJournalPath env ".private-journal", true⟩ := by
  cases hvn : env.agenticJournalVault with
  | none => rw [isObsidianModeNone hvn] at hm; exact absurd hm (by decide)
  | some v =>
    rw [isObsidianModeSome hvn] at hm
    rw [hvn] at hv
    simp only [Option.getD_some] at hv
    unfold getUserJournalPathVault
    rw [hvn]
    show (if ((!(v == "")) && (!(strTrim v == ""))) = true then _ else _) = _
    rw [if_pos hm, hv]

theorem vaultBranchOff (env : Env) (vaults : VaultMap)
    (hm : isObsidianMode env = false) :
    getUserJournalPathVault env vaults
      = ⟨resolveJournalPath env ".private-journal", false⟩ := by
  cases hvn : env.agenticJournalVault with
  | none => simp [getUserJournalPathVault, hvn]
  | some v =>
    rw [isObsidianModeSome hvn] at hm
    unfold getUserJournalPathVault
    rw [hvn]
    show (if ((!(v == "")) && (!(strTrim v == ""))) = true then _ else _) = _
    rw [if_neg (by rw [hm]; exact Bool.false_ne_true)]

/-- C3: user-root path resolution follows the three-step fallback totally
and in order: a truthy explicit override is returned verbatim regardless of
vault state; otherwise a set (non-blank) named vault that resolves in the
vault map yields `<vault-path>/agentic-journal`; a set but unresolvable
vault yields the default path with the warning emitted; and with neither
set the default path is returned without a warning.  "Set" is the source's
own truthiness test (`isObsidianMode`); the default path is
`resolveJournalPath env ".private-journal"`. -/
theorem c3_user_root_fallback_total (env : Env) (vaults : VaultMap) :
    (truthyS env.agenticJournalPath = true →
      getUserJournalPath env vaults = ⟨env.agenticJournalPath.getD "", false⟩) ∧
    (truthyS env.agenticJournalPath = false → isObsidianMode env = true →
      ∀ vp, lookupVault vaults (env.agenticJournalVault.getD "") = some vp →
        getUserJournalPath env vaults = ⟨posixJoin vp "agentic-journal", false⟩) ∧
    (truthyS env.agenticJournalPath = false → isObsidianMode env = true →
      lookupVault vaults (env.agenticJournalVault.getD "") = none →
      getUserJournalPath env vaults = ⟨resolveJournalPath env ".private-journal", true⟩) ∧
    (truthyS env.agenticJournalPath = false → isObsidianMode env = false →
      getUserJournalPath env vaults = ⟨resolveJournalPath env ".private-journal", false⟩) := by
  refine ⟨?_, ?_, ?_, ?_⟩
  · intro h
    cases hp : env.agenticJournalPath with
    | none => rw [hp] at h; exact absurd h (by decide)
    | some p =>
      rw [hp] at h
      have hpe : p ≠ "" := by simpa [truthyS] using h
      simp [getUserJournalPath, hp, hpe]
  · intro h hm vp hv
    rw [userPathSkipOverride env vaults h]
    exact vaultBranchFound env vaults vp hm hv
  · intro h hm hv
    rw [userPathSkipOverride env vaults h]
    exact vaultBranchMissing env vaults hm hv
  · intro h hm
    rw [userPathSkipOverride env vaults h]
    exact vaultBranchOff env vaults hm

/-- Witness for C3: the four fallback cases at concrete environments. -/
theorem c3_user_root_fallback_total_witness :
    getUserJournalPath ⟨some "/ovr", some "V", none, some "/h", none⟩ [("V", "/vlt")]
      = ⟨"/ovr", false⟩
    ∧ getUserJournalPath ⟨none, some "V", none, some "/h", none⟩ [("V", "/vlt")]
      = ⟨posixJoin "/vlt" "agentic-journal", false⟩
    ∧ getUserJournalPath ⟨none, some "V", none, some "/h", none⟩ []
      = ⟨resolveJournalPath ⟨none, some "V", none, some "/h", none⟩ ".private-journal", true⟩
    ∧ getUserJournalPath ⟨none, none, none, some "/h", none⟩ []
      = ⟨resolveJournalPath ⟨none, none, none, some "/h", none⟩ ".private-journal", false⟩ := by
  refine ⟨?_, ?_, ?_, ?_⟩
  · exact (c3_user_root_fallback_total _ _).1 (by decide)
  · exact (c3_user_root_fallback_total _ _).2.1 (by decide) (by decide) "/vlt" (by decide)
  · exact (c3_user_root_fallback_total _ _).2.2.1 (by decide) (by decide) (by decide)
  · exact (c3_user_root_fallback_total _ _).2.2.2 (by decide) (by decide)

/-- C4: in synced-vault mode (and with the POSIX cache root), the embedding
location computed for a user-root markdown path `<base>/<date>/<time>.md`
is `<cache-root>/<date>--<time>.embedding`, built only from the
date-directory and base filename, and is therefore identical for two
markdown paths that differ only in the vault prefix. -/
theorem c4_flattened_cache_location (env : Env) (base base2 date time : String)
    (hm : isObsidianMode env = true) (hl : truthyS env.localAppData = false)
    (hdne : date ≠ "") (htne : time ≠ "")
    (hd : date.data.all (fun c => !(isSlash c)) = true)
    (ht : time.data.all (fun c => !(isSlash c)) = true) :
    getEmbeddingPathForFile env (base ++ "/" ++ date ++ "/" ++ time ++ ".md") true
      = posixJoin (getEmbeddingCachePath env) (date ++ "--" ++ time ++ ".embedding")
    ∧ getEmbeddingPathForFile env (base2 ++ "/" ++ date ++ "/" ++ time ++ ".md") true
      = getEmbeddingPathForFile env (base ++ "/" ++ date ++ "/" ++ time ++ ".md") true := by
  refine ⟨embeddingCacheForm env base date time hm hl hdne htne hd ht, ?_⟩
  rw [embeddingCacheForm env base date time hm hl hdne htne hd ht,
    embeddingCacheForm env base2 date time hm hl hdne htne hd ht]

/-- Witness for C4 at the design-document example paths. -/
theorem c4_flattened_cache_location_witness :
    getEmbeddingPathForFile obsEnv
        ("/vault/agentic-journal" ++ "/" ++ "2025-12-22" ++ "/" ++ "14-30-45-123456" ++ ".md") true
      = posixJoin (getEmbeddingCachePath obsEnv)
          ("2025-12-22" ++ "--" ++ "14-30-45-123456" ++ ".embedding")
    ∧ getEmbeddingPathForFile obsEnv
        ("/other-vault" ++ "/" ++ "2025-12-22" ++ "/" ++ "14-30-45-123456" ++ ".md") true
      = getEmbeddingPathForFile obsEnv
        ("/vault/agentic-journal" ++ "/" ++ "2025-12-22" ++ "/" ++ "14-30-45-123456" ++ ".md") true :=
  c4_flattened_cache_location obsEnv "/vault/agentic-journal" "/other-vault"
    "2025-12-22" "14-30-45-123456" (by decide) (by decide) (by decide) (by decide)
    (by decide) (by decide)

/-- C5 counterexample: two calls with identical markdown path, is-user-root
flag and synced-vault-mode flag, differing only in the `HOME` environment,
return different embedding locations — so the location is not a pure
function of the three inputs alone. -/
theorem c5_not_pure_in_triple_counterexample :
    isObsidianMode ⟨none, some "V", none, some "/a", none⟩
      = isObsidianMode ⟨none, some "V", none, some "/b", none⟩
    ∧ getEmbeddingPathForFile ⟨none, some "V", none, some "/a", none⟩
        "x/2025-01-01/01-02-03-000000.md" true
      ≠ getEmbeddingPathForFile ⟨none, some "V", none, some "/b", none⟩
        "x/2025-01-01/01-02-03-000000.md" true := by
  constructor
  · decide
  · decide

/-- C5 amended: embedding location is a pure function of the markdown path,
the is-user-root flag, the synced-vault-mode flag and the cache-root
environment (`LOCALAPPDATA` and `HOME`): any two calls agreeing on these
return identical path strings, independent of call order or prior state. -/
theorem c5_pure_function_of_inputs (env1 env2 : Env) (mdPath : String) (b : Bool)
    (h1 : env1.localAppData = env2.localAppData) (h2 : env1.home = env2.home)
    (h3 : isObsidianMode env1 = isObsidianMode env2) :
    getEmbeddingPathForFile env1 mdPath b = getEmbeddingPathForFile env2 mdPath b := by
  have hc : getEmbeddingCachePath env1 = getEmbeddingCachePath env2 := by
    unfold getEmbeddingCachePath getEmbeddingCachePathUnix
    rw [h1, h2]
  unfold getEmbeddingPathForFile
  rw [h3, hc, h1]

/-- Witness for C5's amended theorem: environments differing in an
irrelevant variable yield the same location. -/
theorem c5_pure_function_of_inputs_witness :
    getEmbeddingPathForFile ⟨none, some "V", none, some "/h", some "/u1"⟩
        "x/2025-01-01/01-02-03-000000.md" true
      = getEmbeddingPathForFile ⟨none, some "V", none, some "/h", some "/u2"⟩
        "x/2025-01-01/01-02-03-000000.md" true :=
  c5_pure_function_of_inputs _ _ "x/2025-01-01/01-02-03-000000.md" true rfl rfl rfl

theorem addVaultEntriesGood (l : List Json) (m : VaultMap)
    (h : goodPathEntries l = true) :
    addVaultEntries l m = .ok (specVaultFoldFrom l m) := by
  induction l generalizing m with
  | nil => rfl
  | cons vd rest ih =>
    have hg : (match jsGetProp vd "path" with
        | .error _ => false
        | .ok none => true
        | .ok (some pj) => !(jsTruthy pj)
            || (match pj with | .str _ => true | _ => false))
          = true ∧ goodPathEntries rest = true := by
      unfold goodPathEntries at h
      rw [List.all_cons, Bool.and_eq_true] at h
      exact h
    have hrest := hg.2
    have hvd := hg.1
    have hunf : addVaultEntries (vd :: rest) m
        = (match jsGetProp vd "path" with
            | .error _ => .error ()
            | .ok none => addVaultEntries rest m
            | .ok (some pj) =>
              if jsTruthy pj then
                match pj with
                | .str s => addVaultEntries rest (insertVault m (strBasename s) s)
                | _ => .error ()
              else addVaultEntries rest m) := rfl
    have hfold : specVaultFoldFrom (vd :: rest) m
        = specVaultFoldFrom rest (match jsGetProp vd "path" with
            | .ok (some (.str s)) => if s ≠ "" then insertVault m (strBasename s) s else m
            | _ => m) := rfl
    rw [hunf, hfold]
    cases hpj : jsGetProp vd "path" with
    | error e =>
      rw [hpj] at hvd
      exact absurd hvd Bool.false_ne_true
    | ok o =>
      cases o with
      | none => exact ih m hrest
      | some pj =>
        rw [hpj] at hvd
        cases pj with
        | str s =>
          by_cases hs : s = ""
          · subst hs
            exact ih m hrest
          · have ht : jsTruthy (Json.str s) = true := by
              simp [jsTruthy, hs]
            change (if jsTruthy (Json.str s) = true
                then addVaultEntries rest (insertVault m (strBasename s) s)
                else addVaultEntries rest m)
              = Except.ok (specVaultFoldFrom rest
                  (if s ≠ "" then insertVault m (strBasename s) s else m))
            rw [if_pos ht, if_pos hs]
            exact ih _ hrest
        | null => exact ih m hrest
        | bool bb =>
          have hbb : bb = false := by
            cases bb
            · rfl
            · exact absurd hvd (by decide)
          subst hbb
          exact ih m hrest
        | num n =>
          have hn : n = 0 := by
            by_contra hn
            have hvd2 : (!(jsTruthy (Json.num n))
                || (match Json.num n with | Json.str _ => true | _ => false)) = true := hvd
            rw [show (match Json.num n with
                | Json.str _ => true | _ => false) = false from rfl] at hvd2
            have htr : jsTruthy (Json.num n) = true := by simp [jsTruthy, hn]
            rw [htr] at hvd2
            exact absurd hvd2 (by decide)
          subst hn
          exact ih m hrest
        | arr xs => exact absurd hvd (by simp [jsTruthy])
        | obj fs => exact absurd hvd (by simp [jsTruthy])

/-- C7 counterexample: a registry document containing a vault entry with
the usable path `"/x/y"` nevertheless yields the empty mapping (no
`"y" → "/x/y"` entry) when another entry throws — a truthy non-string path
makes `path.basename` throw, and a `null` vault entry makes the
`vault.path` read itself throw — the catch returning `{}` in both cases;
the same document without the bad entry does insert the mapping. -/
theorem c7_usable_path_counterexample :
    parseObsidianConfig (some (.obj [("vaults",
        .obj [("id1", .obj [("path", .str "/x/y")]),
              ("id2", .obj [("path", .num 1)])])])) = []
    ∧ parseObsidianConfig (some (.obj [("vaults",
        .obj [("a", .null),
              ("b", .obj [("path", .str "/x/y")])])])) = []
    ∧ parseObsidianConfig (some (.obj [("vaults",
        .obj [("id1", .obj [("path", .str "/x/y")])])])) = [("y", "/x/y")] := by
  refine ⟨rfl, rfl, rfl⟩

/-- C7 amended: `parseObsidianConfig` is total (never throws); malformed
JSON and a `null` document, and a missing, falsy or non-object `vaults`
field, yield the empty mapping; and whenever no vault entry is `null` and
every truthy `path` value among the entries is a string, each entry with a
usable (truthy string) path contributes the mapping
`basename(path) → path`, in order.  A document containing a `null` vault
entry or a truthy non-string path value yields the empty mapping instead
(the thrown type error is caught). -/
theorem c7_parse_registry_best_effort :
    (parseObsidianConfig none = [])
    ∧ (∀ j : Json, jsGetProp j "vaults" = .error () → parseObsidianConfig (some j) = [])
    ∧ (∀ j : Json, jsGetProp j "vaults" = .ok none → parseObsidianConfig (some j) = [])
    ∧ (∀ j v, jsGetProp j "vaults" = .ok (some v) → jsTruthy v = false →
        parseObsidianConfig (some j) = [])
    ∧ (∀ j v, jsGetProp j "vaults" = .ok (some v) → jsTypeofObject v = false →
        parseObsidianConfig (some j) = [])
    ∧ (∀ j v, jsGetProp j "vaults" = .ok (some v) → jsTruthy v = true →
        jsTypeofObject v = true → goodPathEntries (jsEntriesValues v) = true →
        parseObsidianConfig (some j) = specVaultFold (jsEntriesValues v)) := by
  refine ⟨rfl, ?_, ?_, ?_, ?_, ?_⟩
  · intro j hj
    simp only [parseObsidianConfig]
    rw [hj]
  · intro j hj
    simp only [parseObsidianConfig]
    rw [hj]
  · intro j v hj hv
    simp only [parseObsidianConfig]
    rw [hj]
    show (if ¬jsTruthy v = true then []
        else if ¬jsTypeofObject v = true then []
        else match addVaultEntries (jsEntriesValues v) [] with
             | Except.ok m => m
             | Except.error _ => []) = ([] : VaultMap)
    rw [if_pos (by simp [hv])]
  · intro j v hj ht
    simp only [parseObsidianConfig]
    rw [hj]
    show (if ¬jsTruthy v = true then []
        else if ¬jsTypeofObject v = true then []
        else match addVaultEntries (jsEntriesValues v) [] with
             | Except.ok m => m
             | Except.error _ => []) = ([] : VaultMap)
    by_cases hv : jsTruthy v = true
    · rw [if_neg (by simp [hv]), if_pos (by simp [ht])]
    · rw [if_pos (by simpa using hv)]
  · intro j v hj h1 h2 hgood
    simp only [parseObsidianConfig]
    rw [hj]
    show (if ¬jsTruthy v = true then []
        else if ¬jsTypeofObject v = true then []
        else match addVaultEntries (jsEntriesValues v) [] with
             | Except.ok m => m
             | Except.error _ => []) = specVaultFold (jsEntriesValues v)
    rw [if_neg (by simp [h1]), if_neg (by simp [h2]),
      addVaultEntriesGood (jsEntriesValues v) [] hgood]
    rfl

/-- Witness for C7's amended theorem at a concrete well-formed document. -/
theorem c7_parse_registry_best_effort_witness :
    parseObsidianConfig (some (.obj [("vaults",
        .obj [("idA", .obj [("path", .str "/home/u/MyVault")])])]))
      = specVaultFold (jsEntriesValues
          (.obj [("idA", .obj [("path", .str "/home/u/MyVault")])])) :=
  c7_parse_registry_best_effort.2.2.2.2.2
    (.obj [("vaults", .obj [("idA", .obj [("path", .str "/home/u/MyVault")])])])
    (.obj [("idA", .obj [("path", .str "/home/u/MyVault")])])
    rfl rfl rfl rfl

/-- C6: for every write of a thoughts entry, the call succeeds exactly when
directory creation and markdown persistence succeed — independent of every
embedding-pipeline outcome (extraction, model call, persistence) — and on
success the markdown file at the destination holds the formatted entry,
untouched by any embedding failure, which is swallowed inside
`generateEmbeddingForEntry`. -/
theorem c6_embedding_failure_never_fails_write (o : FsOracle) (env : Env)
    (up : String) (t : Thoughts) (ts : Timestamp) (basePath : String)
    (md : Option JournalMetadata) (fs : FS) :
    (isOkE (writeThoughtsToLocation o env up t ts basePath md fs)
      = (o.mkdirOk && o.writeFileOk))
    ∧ (o.mkdirOk = true → o.writeFileOk = true →
        writeThoughtsToLocation o env up t ts basePath md fs
          = .ok (generateEmbeddingForEntry o env up (mdPathOf basePath ts)
              (formatThoughts t ts md) ts.epochMs
              (fsWrite fs (mdPathOf basePath ts) (.text (formatThoughts t ts md))))
        ∧ readOfResult (writeThoughtsToLocation o env up t ts basePath md fs)
            (mdPathOf basePath ts)
          = some (.text (formatThoughts t ts md))) := by
  constructor
  · cases h1 : o.mkdirOk with
    | false =>
      rw [wtlError o env up t ts basePath md fs (Or.inl h1)]
      rfl
    | true =>
      cases h2 : o.writeFileOk with
      | false =>
        rw [wtlError o env up t ts basePath md fs (Or.inr h2)]
        rfl
      | true =>
        rw [wtlOk o env up t ts basePath md fs h1 h2]
        rfl
  · intro h1 h2
    have hok := wtlOk o env up t ts basePath md fs h1 h2
    refine ⟨hok, ?_⟩
    rw [hok]
    show fsRead _ _ = _
    rw [genPreservesMd o env up (mdPathOf basePath ts) (formatThoughts t ts md)
      ts.epochMs _ (mdPathOf basePath ts)
      (mdPathOfEndsWith basePath ts) (mdPathOfEndsWith basePath ts)]
    rw [fsReadFsWrite, if_pos rfl]

/-- Witness for C6: with markdown persistence succeeding but the embedding
model failing, the write succeeds and the markdown file holds the entry. -/
theorem c6_embedding_failure_never_fails_write_witness :
    isOkE (writeThoughtsToLocation ⟨true, true, true, false, false⟩ defEnv "/user"
        thoughtsA tsA "/user" none []) = true
    ∧ readOfResult (writeThoughtsToLocation ⟨true, true, true, false, false⟩ defEnv "/user"
        thoughtsA tsA "/user" none []) (mdPathOf "/user" tsA)
      = some (.text (formatThoughts thoughtsA tsA none)) := by
  constructor
  · rw [(c6_embedding_failure_never_fails_write ⟨true, true, true, false, false⟩ defEnv "/user"
      thoughtsA tsA "/user" none []).1]
    rfl
  · exact ((c6_embedding_failure_never_fails_write ⟨true, true, true, false, false⟩ defEnv "/user"
      thoughtsA tsA "/user" none []).2 rfl rfl).2

theorem wtlOkR (o : FsOracle) (env : Env) (up : String) (t : Thoughts)
    (ts : Timestamp) (basePath : String) (md : Option JournalMetadata) (fs : FS)
    (h1 : o.mkdirOk = true) (h2 : o.writeFileOk = true) :
    writeThoughtsToLocation o env up t ts basePath md fs
      = .ok (wtlResultFS o env up t ts basePath md fs) :=
  wtlOk o env up t ts basePath md fs h1 h2

theorem writeThoughtsRes (env : Env) (vaults : VaultMap) (pPath : String)
    (expU : Option String) (t : Thoughts) (ts : Timestamp)
    (md : Option JournalMetadata) (fs : FS) :
    writeThoughts FsOracle.allOk env vaults pPath expU t ts md fs
      = .ok (userStepFS env vaults expU t ts md
          (projStepFS env vaults expU pPath t ts md fs)) := by
  unfold writeThoughts
  by_cases hp : truthyS t.project_notes = true
  · have hp2 : truthyS (projectSplit t).project_notes = true := hp
    rw [if_pos hp2, wtlOkR _ _ _ _ _ _ _ _ rfl rfl]
    show (if anyUserDefined t = true then
        writeThoughtsToLocation FsOracle.allOk env
          (resolveUserJournalPathJM env vaults expU) (userSplit t) ts
          (resolveUserJournalPathJM env vaults expU) md
          (wtlResultFS FsOracle.allOk env (resolveUserJournalPathJM env vaults expU)
            (projectSplit t) ts pPath md fs)
      else .ok (wtlResultFS FsOracle.allOk env (resolveUserJournalPathJM env vaults expU)
            (projectSplit t) ts pPath md fs)) = _
    by_cases hu : anyUserDefined t = true
    · rw [if_pos hu, wtlOkR _ _ _ _ _ _ _ _ rfl rfl]
      unfold userStepFS projStepFS
      rw [if_pos hu, if_pos hp]
    · rw [if_neg hu]
      unfold userStepFS projStepFS
      rw [if_neg hu, if_pos hp]
  · have hp2 : ¬ (truthyS (projectSplit t).project_notes = true) := hp
    rw [if_neg hp2]
    show (if anyUserDefined t = true then
        writeThoughtsToLocation FsOracle.allOk env
          (resolveUserJournalPathJM env vaults expU) (userSplit t) ts
          (resolveUserJournalPathJM env vaults expU) md fs
      else .ok fs) = _
    by_cases hu : anyUserDefined t = true
    · rw [if_pos hu, wtlOkR _ _ _ _ _ _ _ _ rfl rfl]
      unfold userStepFS projStepFS
      rw [if_pos hu, if_neg hp]
    · rw [if_neg hu]
      unfold userStepFS projStepFS
      rw [if_neg hu, if_neg hp]

theorem wtlResultRead (o : FsOracle) (env : Env) (up : String) (t : Thoughts)
    (ts : Timestamp) (basePath : String) (md : Option JournalMetadata) (X : FS)
    (p : String) (hp : strEndsWith p ".md" = true) :
    fsRead (wtlResultFS o env up t ts basePath md X) p
      = if p = mdPathOf basePath ts then some (.text (formatThoughts t ts md))
        else fsRead X p := by
  unfold wtlResultFS
  rw [genPreservesMd o env up (mdPathOf basePath ts) _ _ _ p
    (mdPathOfEndsWith basePath ts) hp]
  rw [fsReadFsWrite]

/-- C8: sections are partitioned by destination — the project split goes to
the project root, the remaining sections to the resolved user root — and
each written partition produces exactly one markdown file, at its root's
day-directory path, leaving every other markdown path untouched (so a call
yields zero, one, or two files).  In particular (Scenario B) a call with
both a project section and a user section produces exactly two markdown
files, one under each root. -/
theorem c8_sections_partitioned_by_destination :
    (∀ (env : Env) (vaults : VaultMap) (pPath : String) (expU : Option String)
        (t : Thoughts) (ts : Timestamp) (md : Option JournalMetadata) (fs : FS),
      ∃ fs', writeThoughts FsOracle.allOk env vaults pPath expU t ts md fs = .ok fs' ∧
        ∀ p, strEndsWith p ".md" = true →
          fsRead fs' p =
            if anyUserDefined t = true
                ∧ p = mdPathOf (resolveUserJournalPathJM env vaults expU) ts then
              some (.text (formatThoughts (userSplit t) ts md))
            else if truthyS t.project_notes = true ∧ p = mdPathOf pPath ts then
              some (.text (formatThoughts (projectSplit t) ts md))
            else fsRead fs p)
    ∧ mdCountOfResult (writeThoughts FsOracle.allOk defEnv [] "/proj" (some "/user")
        thoughtsB tsA none []) = 2
    ∧ readOfResult (writeThoughts FsOracle.allOk defEnv [] "/proj" (some "/user")
        thoughtsB tsA none []) (mdPathOf "/proj" tsA)
      = some (.text (formatThoughts (projectSplit thoughtsB) tsA none))
    ∧ readOfResult (writeThoughts FsOracle.allOk defEnv [] "/proj" (some "/user")
        thoughtsB tsA none []) (mdPathOf "/user" tsA)
      = some (.text (formatThoughts (userSplit thoughtsB) tsA none)) := by
  refine ⟨?_, by decide, by decide, by decide⟩
  intro env vaults pPath expU t ts md fs
  refine ⟨_, writeThoughtsRes env vaults pPath expU t ts md fs, ?_⟩
  intro p hpmd
  unfold userStepFS projStepFS
  by_cases hu : anyUserDefined t = true
  · rw [if_pos hu]
    rw [wtlResultRead _ _ _ _ _ _ _ _ p hpmd]
    by_cases hpu : p = mdPathOf (resolveUserJournalPathJM env vaults expU) ts
    · rw [if_pos hpu, if_pos (⟨hu, hpu⟩ : anyUserDefined t = true
        ∧ p = mdPathOf (resolveUserJournalPathJM env vaults expU) ts)]
    · rw [if_neg hpu,
        if_neg (show ¬(anyUserDefined t = true
          ∧ p = mdPathOf (resolveUserJournalPathJM env vaults expU) ts)
          from fun h => hpu h.2)]
      by_cases hp : truthyS t.project_notes = true
      · rw [if_pos hp, wtlResultRead _ _ _ _ _ _ _ _ p hpmd]
        by_cases hpp : p = mdPathOf pPath ts
        · rw [if_pos hpp, if_pos (⟨hp, hpp⟩ : truthyS t.project_notes = true
            ∧ p = mdPathOf pPath ts)]
        · rw [if_neg hpp,
            if_neg (show ¬(truthyS t.project_notes = true ∧ p = mdPathOf pPath ts)
              from fun h => hpp h.2)]
      · rw [if_neg hp,
          if_neg (show ¬(truthyS t.project_notes = true ∧ p = mdPathOf pPath ts)
            from fun h => hp h.1)]
  · rw [if_neg hu,
      if_neg (show ¬(anyUserDefined t = true
        ∧ p = mdPathOf (resolveUserJournalPathJM env vaults expU) ts)
        from fun h => hu h.1)]
    by_cases hp : truthyS t.project_notes = true
    · rw [if_pos hp, wtlResultRead _ _ _ _ _ _ _ _ p hpmd]
      by_cases hpp : p = mdPathOf pPath ts
      · rw [if_pos hpp, if_pos (⟨hp, hpp⟩ : truthyS t.project_notes = true
          ∧ p = mdPathOf pPath ts)]
      · rw [if_neg hpp,
          if_neg (show ¬(truthyS t.project_notes = true ∧ p = mdPathOf pPath ts)
            from fun h => hpp h.2)]
    · rw [if_neg hp,
        if_neg (show ¬(truthyS t.project_notes = true ∧ p = mdPathOf pPath ts)
          from fun h => hp h.1)]

/-- Witness for C8: the characterization applied at Scenario B's input and
the user-root markdown path. -/
theorem c8_sections_partitioned_by_destination_witness :
    readOfResult (writeThoughts FsOracle.allOk defEnv [] "/proj" (some "/user")
        thoughtsB tsA none []) (mdPathOf "/user" tsA)
      = some (.text (formatThoughts (userSplit thoughtsB) tsA none)) := by
  obtain ⟨fs', hok, hchar⟩ :=
    c8_sections_partitioned_by_destination.1 defEnv [] "/proj" (some "/user")
      thoughtsB tsA none []
  have hp := hchar (mdPathOf "/user" tsA) (by decide)
  calc readOfResult (writeThoughts FsOracle.allOk defEnv [] "/proj" (some "/user")
          thoughtsB tsA none []) (mdPathOf "/user" tsA)
      = readOfResult (.ok fs') (mdPathOf "/user" tsA) := by rw [hok]
    _ = fsRead fs' (mdPathOf "/user" tsA) := rfl
    _ = some (.text (formatThoughts (userSplit thoughtsB) tsA none)) := by
        rw [hp]
        rw [if_pos ⟨by decide, rfl⟩]

/-- C9: the frontmatter tag list always begins with the fixed domain tag
`agentic-journal` followed by exactly one tag per present (truthy) section,
in section-declaration order; and (Scenario A) an entry written with only a
feelings section and no metadata produces one file under the user root's
day-directory whose tags are `[agentic-journal, feelings]` and whose lines
contain no `project:`/`agent:` line. -/
theorem c9_tag_list_domain_then_sections :
    (∀ t : Thoughts, buildTags t = "agentic-journal" :: sectionTagList t)
    ∧ buildTags thoughtsA = ["agentic-journal", "feelings"]
    ∧ mdCountOfResult (writeThoughts FsOracle.allOk defEnv [] "/proj" (some "/user")
        thoughtsA tsA none []) = 1
    ∧ readOfResult (writeThoughts FsOracle.allOk defEnv [] "/proj" (some "/user")
        thoughtsA tsA none []) (mdPathOf "/user" tsA)
      = some (.text (formatThoughts thoughtsA tsA none))
    ∧ ((strLines (formatThoughts thoughtsA tsA none)).all
        (fun l => !(strStartsWith l "project:") && !(strStartsWith l "agent:"))) = true := by
  refine ⟨?_, by decide, by decide, by decide, by decide⟩
  intro t
  unfold buildTags sectionTagList
  cases h1 : truthyS t.feelings <;> cases h2 : truthyS t.project_notes <;>
    cases h3 : truthyS t.user_context <;> cases h4 : truthyS t.technical_insights <;>
    cases h5 : truthyS t.world_knowledge <;>
    simp [List.filterMap, h1, h2, h3, h4, h5]

theorem mdPathOfInj {a b : String} (ts : Timestamp)
    (h : mdPathOf a ts = mdPathOf b ts) : a = b := by
  unfold mdPathOf posixJoin at h
  have hd := congrArg String.data h
  simp only [strDataAppend, List.append_assoc] at hd
  apply String.ext
  have h2 : a.data ++ ("/".data ++ (ts.dateString.data ++ ("/".data
      ++ (ts.timeString.data ++ ".md".data))))
      = b.data ++ ("/".data ++ (ts.dateString.data ++ ("/".data
      ++ (ts.timeString.data ++ ".md".data)))) := hd
  exact List.append_cancel_right h2

theorem truthyOfBlank {x : Option String} (h : (x.getD "" == "") = true) :
    truthyS x = false := by
  cases x with
  | none => rfl
  | some s =>
    simp at h
    simp [truthyS, h]

/-- C10: the two partitions use different emptiness tests — the project
file is written only for a truthy (non-empty) `project_notes`, while the
user file is written whenever any user section is defined, including when
every defined user section is the empty string, in which case the single
user-root markdown file carries no section body and only the domain tag. -/
theorem c10_asymmetric_emptiness_tests (env : Env) (vaults : VaultMap)
    (pPath : String) (expU : Option String) (t : Thoughts) (ts : Timestamp)
    (md : Option JournalMetadata) (fs : FS)
    (hroots : resolveUserJournalPathJM env vaults expU ≠ pPath) :
    ∃ fs', writeThoughts FsOracle.allOk env vaults pPath expU t ts md fs = .ok fs' ∧
      (truthyS t.project_notes = true →
        fsRead fs' (mdPathOf pPath ts)
          = some (.text (formatThoughts (projectSplit t) ts md)))
      ∧ (truthyS t.project_notes = false →
        fsRead fs' (mdPathOf pPath ts) = fsRead fs (mdPathOf pPath ts))
      ∧ (anyUserDefined t = true →
        fsRead fs' (mdPathOf (resolveUserJournalPathJM env vaults expU) ts)
          = some (.text (formatThoughts (userSplit t) ts md)))
      ∧ (anyUserDefined t = false →
        fsRead fs' (mdPathOf (resolveUserJournalPathJM env vaults expU) ts)
          = fsRead fs (mdPathOf (resolveUserJournalPathJM env vaults expU) ts))
      ∧ (allUserBlank t = true →
        buildTags (userSplit t) = ["agentic-journal"] ∧ buildSections (userSplit t) = []) := by
  have hne : mdPathOf (resolveUserJournalPathJM env vaults expU) ts ≠ mdPathOf pPath ts :=
    fun h => hroots (mdPathOfInj ts h)
  refine ⟨_, writeThoughtsRes env vaults pPath expU t ts md fs, ?_, ?_, ?_, ?_, ?_⟩
  · intro hp
    unfold userStepFS projStepFS
    rw [if_pos hp]
    by_cases hu : anyUserDefined t = true
    · rw [if_pos hu,
        wtlResultRead _ _ _ _ _ _ _ _ (mdPathOf pPath ts) (mdPathOfEndsWith pPath ts),
        if_neg (fun h => hne h.symm),
        wtlResultRead _ _ _ _ _ _ _ _ (mdPathOf pPath ts) (mdPathOfEndsWith pPath ts),
        if_pos rfl]
    · rw [if_neg hu,
        wtlResultRead _ _ _ _ _ _ _ _ (mdPathOf pPath ts) (mdPathOfEndsWith pPath ts),
        if_pos rfl]
  · intro hp
    unfold userStepFS projStepFS
    rw [if_neg (show ¬(truthyS t.project_notes = true) from by simp [hp])]
    by_cases hu : anyUserDefined t = true
    · rw [if_pos hu,
        wtlResultRead _ _ _ _ _ _ _ _ (mdPathOf pPath ts) (mdPathOfEndsWith pPath ts),
        if_neg (fun h => hne h.symm)]
    · rw [if_neg hu]
  · intro hu
    unfold userStepFS
    rw [if_pos hu,
      wtlResultRead _ _ _ _ _ _ _ _
        (mdPathOf (resolveUserJournalPathJM env vaults expU) ts)
        (mdPathOfEndsWith (resolveUserJournalPathJM env vaults expU) ts),
      if_pos rfl]
  · intro hu
    unfold userStepFS projStepFS
    rw [if_neg (show ¬(anyUserDefined t = true) from by simp [hu])]
    by_cases hp : truthyS t.project_notes = true
    · rw [if_pos hp,
        wtlResultRead _ _ _ _ _ _ _ _
          (mdPathOf (resolveUserJournalPathJM env vaults expU) ts)
          (mdPathOfEndsWith (resolveUserJournalPathJM env vaults expU) ts),
        if_neg hne]
    · rw [if_neg hp]
  · intro hb
    simp only [allUserBlank, Bool.and_eq_true] at hb
    obtain ⟨⟨⟨h1, h2⟩, h3⟩, h4⟩ := hb
    have t1 := truthyOfBlank h1
    have t2 := truthyOfBlank h2
    have t3 := truthyOfBlank h3
    have t4 := truthyOfBlank h4
    have t0 : truthyS none = false := rfl
    constructor
    · unfold buildTags userSplit
      simp [t0, t1, t2, t3, t4]
    · unfold buildSections userSplit
      simp [t0, t1, t2, t3, t4]

/-- Witness for C10: with `project_notes` and `feelings` both the empty
string, no project file is written, exactly the user file is written, and
it carries only the domain tag and no section body. -/
theorem c10_asymmetric_emptiness_tests_witness :
    readOfResult (writeThoughts FsOracle.allOk defEnv [] "/proj" (some "/user")
        thoughtsC tsA none []) (mdPathOf "/proj" tsA) = none
    ∧ readOfResult (writeThoughts FsOracle.allOk defEnv [] "/proj" (some "/user")
        thoughtsC tsA none []) (mdPathOf "/user" tsA)
      = some (.text (formatThoughts (userSplit thoughtsC) tsA none))
    ∧ buildTags (userSplit thoughtsC) = ["agentic-journal"]
    ∧ buildSections (userSplit thoughtsC) = [] := by
  obtain ⟨fs', hok, hc1, hc2, hc3, hc4, hc5⟩ :=
    c10_asymmetric_emptiness_tests defEnv [] "/proj" (some "/user") thoughtsC tsA none []
      (by decide)
  have hb := hc5 (by decide)
  refine ⟨?_, ?_, hb.1, hb.2⟩
  · calc readOfResult (writeThoughts FsOracle.allOk defEnv [] "/proj" (some "/user")
          thoughtsC tsA none []) (mdPathOf "/proj" tsA)
        = fsRead fs' (mdPathOf "/proj" tsA) := by rw [hok]; rfl
      _ = fsRead [] (mdPathOf "/proj" tsA) := hc2 (by decide)
      _ = none := rfl
  · calc readOfResult (writeThoughts FsOracle.allOk defEnv [] "/proj" (some "/user")
          thoughtsC tsA none []) (mdPathOf "/user" tsA)
        = fsRead fs' (mdPathOf "/user" tsA) := by rw [hok]; rfl
      _ = some (.text (formatThoughts (userSplit thoughtsC) tsA none)) := hc3 (by decide)

/-- C1: evaluation at the failing input.  In synced-vault mode, with one
user-root markdown entry and no embeddings, a first completed
`generateMissingEmbeddings` run regenerates one embedding and persists it
at the mode-computed cache location, yet a second run with no intervening
writes again reports one regenerated embedding instead of zero, because the
scanner checks `mdPath.replace(/\.md$/, '.embedding')` alongside the file —
not `getEmbeddingPathForFile`, where the write path persisted it. -/
theorem c1_reconciliation_not_idempotent_eval :
    (generateMissingEmbeddings FsOracle.allOk obsEnv "/proj" "/vault/agentic-journal" 0 obsFs).1 = 1
    ∧ (generateMissingEmbeddings FsOracle.allOk obsEnv "/proj" "/vault/agentic-journal" 0
        (generateMissingEmbeddings FsOracle.allOk obsEnv "/proj"
          "/vault/agentic-journal" 0 obsFs).2).1 = 1
    ∧ fsExists (generateMissingEmbeddings FsOracle.allOk obsEnv "/proj"
          "/vault/agentic-journal" 0 obsFs).2
        (getEmbeddingPathForFile obsEnv
          "/vault/agentic-journal/2025-12-22/14-30-45-123456.md" true) = true
    ∧ replaceMdSuffix "/vault/agentic-journal/2025-12-22/14-30-45-123456.md"
      ≠ getEmbeddingPathForFile obsEnv
          "/vault/agentic-journal/2025-12-22/14-30-45-123456.md" true := by
  refine ⟨by decide, by decide, by decide, by decide⟩

/-- C2 counterexample: a markdown file whose searchable text is empty is
counted by `generateMissingEmbeddings` (the call returns `1`) although the
embedding pipeline skips it and nothing is persisted — the filesystem is
returned unchanged, so the number of embeddings actually regenerated and
persisted during the call is `0`. -/
theorem c2_count_exceeds_persisted_counterexample :
    (generateMissingEmbeddings FsOracle.allOk defEnv "/proj" "/user" 0 emptyTextFs).1 = 1
    ∧ (generateMissingEmbeddings FsOracle.allOk defEnv "/proj" "/user" 0 emptyTextFs).2
      = emptyTextFs := by
  refine ⟨by decide, by decide⟩

theorem foldlRelGen {α β γ : Type} (R : β → γ → Prop) (f : β → α → β) (g : γ → α → γ)
    (hstep : ∀ b c a, R b c → R (f b a) (g c a)) :
    ∀ (l : List α) (b : β) (c : γ), R b c → R (l.foldl f b) (l.foldl g c) := by
  intro l
  induction l with
  | nil => intro b c h; exact h
  | cons x xs ih => intro b c h; exact ih _ _ (hstep _ _ _ h)

theorem scanMdFileRel (o : FsOracle) (env : Env) (up : String) (now : Int)
    (dayPath : String) :
    ∀ (a : Nat × FS) (b : List String × FS) (f : String),
      (a.1 = b.1.length ∧ a.2 = b.2) →
      ((scanMdFile o env up now dayPath a f).1
          = (scanMdFileLog o env up now dayPath b f).1.length
        ∧ (scanMdFile o env up now dayPath a f).2
          = (scanMdFileLog o env up now dayPath b f).2) := by
  rintro ⟨n, fs⟩ ⟨log, fs2⟩ f ⟨h1, h2⟩
  dsimp only at h1 h2
  subst h2
  simp only [scanMdFile, scanMdFileLog]
  by_cases he : fsExists fs (replaceMdSuffix (posixJoin dayPath f)) = true
  · simp [he, h1]
  · simp [he, h1]

theorem scanDayDirRel (o : FsOracle) (env : Env) (up : String) (now : Int)
    (basePath : String) :
    ∀ (a : Nat × FS) (b : List String × FS) (d : String),
      (a.1 = b.1.length ∧ a.2 = b.2) →
      ((scanDayDir o env up now basePath a d).1
          = (scanDayDirLog o env up now basePath b d).1.length
        ∧ (scanDayDir o env up now basePath a d).2
          = (scanDayDirLog o env up now basePath b d).2) := by
  rintro ⟨n, fs⟩ ⟨log, fs2⟩ d ⟨h1, h2⟩
  dsimp only at h1 h2
  subst h2
  simp only [scanDayDir, scanDayDirLog]
  by_cases hc : (!(isDirectoryFs fs (posixJoin basePath d) && matchesDateDir d)) = true
  · rw [if_pos hc, if_pos hc]
    exact ⟨h1, rfl⟩
  · rw [if_neg hc, if_neg hc]
    exact foldlRelGen (fun a b => a.1 = b.1.length ∧ a.2 = b.2)
      (scanMdFile o env up now (posixJoin basePath d))
      (scanMdFileLog o env up now (posixJoin basePath d))
      (fun b c a h => scanMdFileRel o env up now (posixJoin basePath d) b c a h)
      _ (n, fs) (log, fs) ⟨h1, rfl⟩

theorem scanRootRel (o : FsOracle) (env : Env) (up : String) (now : Int) :
    ∀ (a : Nat × FS) (b : List String × FS) (basePath : String),
      (a.1 = b.1.length ∧ a.2 = b.2) →
      ((scanRoot o env up now a basePath).1
          = (scanRootLog o env up now b basePath).1.length
        ∧ (scanRoot o env up now a basePath).2
          = (scanRootLog o env up now b basePath).2) := by
  rintro ⟨n, fs⟩ ⟨log, fs2⟩ basePath ⟨h1, h2⟩
  dsimp only at h1 h2
  subst h2
  simp only [scanRoot, scanRootLog]
  exact foldlRelGen (fun a b => a.1 = b.1.length ∧ a.2 = b.2)
    (scanDayDir o env up now basePath)
    (scanDayDirLog o env up now basePath)
    (fun b c a h => scanDayDirRel o env up now basePath b c a h)
    _ (n, fs) (log, fs) ⟨h1, rfl⟩

/-- C2 amended: the value returned by `generateMissingEmbeddings` equals
the number of markdown files found without an embedding at the checked
(alongside) location during the scan — for each of which regeneration was
attempted — including files whose embedding generation was skipped (empty
searchable text) or failed; it is not the number of embeddings actually
persisted.  `missingEmbeddingLog` is the same traversal collecting exactly
those files. -/
theorem c2_count_is_checked_and_missing (o : FsOracle) (env : Env)
    (projectJournalPath userPath : String) (nowMs : Int) (fs : FS) :
    (generateMissingEmbeddings o env projectJournalPath userPath nowMs fs).1
      = (missingEmbeddingLog o env projectJournalPath userPath nowMs fs).1.length
    ∧ (generateMissingEmbeddings o env projectJournalPath userPath nowMs fs).2
      = (missingEmbeddingLog o env projectJournalPath userPath nowMs fs).2 := by
  unfold generateMissingEmbeddings missingEmbeddingLog
  exact foldlRelGen (fun a b => a.1 = b.1.length ∧ a.2 = b.2)
    (scanRoot o env userPath nowMs) (scanRootLog o env userPath nowMs)
    (fun b c a h => scanRootRel o env userPath nowMs b c a h)
    [projectJournalPath, userPath] (0, fs) ([], fs) ⟨rfl, rfl⟩
